import Mathlib

/-!
Verification of the logging-server repository (logging_worker_thread.py and
logging_server.py) against its natural-language specification.

The worker side models `LoggingWorkerThread`:
  * `recvChunkAux` / `recvChunk` embed `_recv_chunk` (the bounded polling
    read, lines 94-118 of logging_worker_thread.py);
  * `runAux` / `workerRun` embed `run` (the framed read/decode/dispatch
    loop, lines 69-92), with `unpack32` embedding the `struct.unpack` of
    the 4-byte big-endian length prefix and the pluggable `deser` oracle
    embedding `_makeLogRecord` (`pickle.loads` followed by
    `logging.makeLogRecord`; `none` models a raised exception).

The server side models `LoggingServer.run` (logging_server.py, lines
132-169): `acceptLoop` embeds the accept/reap loop, `drainLoop` embeds the
post-shutdown drain loop, and `serverRun` composes them with the final
blocking join.

Time is discrete: `k` counts evaluations of the polling loop condition (the
points at which the `_force_shutdown` flag is read); the flag is modelled
as becoming set from check index `forceAt` on.  The byte stream from the
peer is given up front as `data` together with `closed` (whether the peer
has sent FIN after `data`); `select` is ready exactly when bytes are
pending or the peer has closed.  `sched` is an oracle giving the number of
bytes each `recv` call yields (capped at the requested count and at what is
available; a ready `recv` yields at least one byte unless the stream is
exhausted and closed, in which case it yields zero, signalling EOF).
Loops are written with explicit fuel; every theorem either holds for all
fuel or carries an explicit sufficiency bound, and the wrappers
(`recvChunk`, `workerRun`) instantiate provably sufficient fuel.
-/

/-- A byte of the TCP stream. -/
abbrev Byte := Nat

/-- The polling accumulation loop of `LoggingWorkerThread._recv_chunk`
(lines 107-115): while the force flag is unset and fewer than `chunkSize`
bytes are accumulated, poll the socket; on timeout loop again, on
readability `recv` the remaining needed bytes, appending them to `chunk`,
and break if `recv` returned zero bytes (peer closed).  Returns the raw
accumulated chunk together with the new check index, the undelivered part
of the stream, and the remaining recv-size oracle. -/
def recvChunkAux (forceAt chunkSize : Nat) :
    Nat → List Byte → Nat → List Byte → Bool → List Nat →
      List Byte × Nat × List Byte × List Nat
  | 0, chunk, k, data, _, sched => (chunk, k, data, sched)
  | fuel + 1, chunk, k, data, closed, sched =>
    if forceAt ≤ k ∨ chunkSize ≤ chunk.length then
      (chunk, k, data, sched)
    else if data = [] ∧ closed = false then
      recvChunkAux forceAt chunkSize fuel chunk (k + 1) data closed sched
    else
      let want := chunkSize - chunk.length
      let amt := min want (max (sched.headD want) 1)
      let taken := data.take amt
      if taken = [] then (chunk, k, data, sched.tail)
      else
        recvChunkAux forceAt chunkSize fuel (chunk ++ taken) (k + 1)
          (data.drop taken.length) closed sched.tail

/-- Fuel that always suffices for `recvChunkAux`: every loop iteration
either consumes a pending byte or (on a poll timeout) brings the check
index closer to `forceAt`. -/
def chunkFuel (forceAt k : Nat) (data : List Byte) : Nat :=
  data.length + (forceAt - k) + 1

/-- `LoggingWorkerThread._recv_chunk` (lines 94-118): run the polling loop
from an empty accumulator, then apply the final length check of lines
116-118 — return the chunk only if exactly `chunkSize` bytes were
accumulated, and the empty byte string otherwise. -/
def recvChunk (forceAt chunkSize k : Nat) (data : List Byte) (closed : Bool)
    (sched : List Nat) : List Byte × Nat × List Byte × List Nat :=
  let r := recvChunkAux forceAt chunkSize (chunkFuel forceAt k data) [] k data
    closed sched
  (if r.1.length = chunkSize then r.1 else [], r.2.1, r.2.2.1, r.2.2.2)

/-- `struct.pack` of a 4-byte unsigned big-endian length (client side of
the wire format, spec section 6). -/
def pack32 (L : Nat) : List Byte :=
  [L / 2 ^ 24 % 256, L / 2 ^ 16 % 256, L / 2 ^ 8 % 256, L % 256]

/-- `struct.unpack` of the 4-byte big-endian length prefix (line 81):
defined only on byte strings of length exactly 4; `none` models the
`struct.error` raised on any other length. -/
def unpack32 : List Byte → Option Nat
  | [b0, b1, b2, b3] => some (((b0 * 256 + b1) * 256 + b2) * 256 + b3)
  | _ => none

/-- The wire encoding of one frame: 4-byte big-endian length prefix
followed by the payload (spec section 6). -/
def encodeFrame (P : List Byte) : List Byte :=
  pack32 P.length ++ P

/-- The wire encoding of a sequence of frames sent back to back on one
connection. -/
def framesData (fs : List (List Byte)) : List Byte :=
  (fs.map encodeFrame).flatten

/-- How the worker's read loop (`LoggingWorkerThread.run`) ended. -/
inductive WExit : Type
  | eof        -- a zero-length result from `_recv_chunk` broke the loop
  | forced     -- the `while not self._force_shutdown` condition failed
  | structErr  -- `struct.unpack` raised (length prefix not 4 bytes)
  | deserErr   -- `_makeLogRecord` raised (unpickling failure)
deriving DecidableEq, Repr

/-- Observable outcome of one execution of `LoggingWorkerThread.run`. -/
structure RunResult (Rec : Type) where
  /-- Records handed to `_handleLogRecord` (the sink), in dispatch order. -/
  dispatched : List Rec
  /-- Payload byte strings passed to `_makeLogRecord`, in order. -/
  attempts : List (List Byte)
  exit : WExit
  /-- Whether line 92 ran, i.e. `socket.shutdown(SHUT_RDWR)` was called. -/
  shutdownCalled : Bool
  /-- Whether the socket was closed (the `with self._socket` context
  manager closes it on every exit, including exception propagation). -/
  sockClosed : Bool
  /-- Check index when the loop ended. -/
  k : Nat
  /-- Bytes of the peer stream never delivered to the worker. -/
  dataLeft : List Byte
deriving DecidableEq

/-- The read/decode/dispatch loop of `LoggingWorkerThread.run` (lines
69-92).  Each iteration: check the force flag; `_recv_chunk(4)` for the
length prefix (empty means socket closed, break); `struct.unpack` the
prefix; `_recv_chunk(L)` for the payload (empty means socket closed,
break); `_makeLogRecord` (an exception propagates, skipping the
`_shutdown_socket()` of line 92 but still closing the socket via the
context manager); `_handleLogRecord` dispatches the record. -/
def runAux {Rec : Type} (deser : List Byte → Option Rec) (forceAt : Nat) :
    Nat → Nat → List Byte → Bool → List Nat → RunResult Rec
  | 0, k, data, _, _ => ⟨[], [], .eof, true, true, k, data⟩
  | fuel + 1, k, data, closed, sched =>
    if forceAt ≤ k then ⟨[], [], .forced, true, true, k, data⟩
    else
      match recvChunk forceAt 4 k data closed sched with
      | (sz, k1, d1, s1) =>
        if sz = [] then ⟨[], [], .eof, true, true, k1, d1⟩
        else
          match unpack32 sz with
          | none => ⟨[], [], .structErr, false, true, k1, d1⟩
          | some len =>
            match recvChunk forceAt len k1 d1 closed s1 with
            | (pl, k2, d2, s2) =>
              if pl = [] then ⟨[], [], .eof, true, true, k2, d2⟩
              else
                match deser pl with
                | none => ⟨[], [pl], .deserErr, false, true, k2, d2⟩
                | some r =>
                  let res := runAux deser forceAt fuel k2 d2 closed s2
                  ⟨r :: res.dispatched, pl :: res.attempts, res.exit,
                    res.shutdownCalled, res.sockClosed, res.k, res.dataLeft⟩

/-- `LoggingWorkerThread.run` with provably sufficient fuel (every loop
iteration that recurses consumes at least five bytes of the stream). -/
def workerRun {Rec : Type} (deser : List Byte → Option Rec) (forceAt k : Nat)
    (data : List Byte) (closed : Bool) (sched : List Nat) : RunResult Rec :=
  runAux deser forceAt (data.length + 1) k data closed sched

/-- One reaping pass of the Listener (`wk.join(0)` followed by filtering
on `wk.is_alive()`, lines 154-157 and 164-167): one server-loop iteration
elapses, so each worker's remaining lifetime decreases by one, and
terminated workers are removed from the registry. -/
def reap (ws : List Nat) : List Nat :=
  (ws.map (fun n => n - 1)).filter (fun n => 0 < n)

/-- Outcome of polling the listening socket in one accept-loop iteration
of `LoggingServer.run` (lines 147-152). -/
inductive AEv : Type
  | timeout          -- `select` returned no readable socket
  | conn (life : Nat)  -- `accept` returned; the worker lives `life` more iterations
  | err              -- `select` or `accept` raised
deriving DecidableEq, Repr

/-- Observable outcome of the accept loop of `LoggingServer.run`. -/
structure AcceptResult where
  accepted : Nat
  /-- An exception escaped the accept loop (it is not caught anywhere in
  `run`, so it propagates). -/
  crashed : Bool
  /-- Worker registry when the loop was left. -/
  workers : List Nat
  kAfter : Nat
deriving DecidableEq, Repr

/-- The accept loop of `LoggingServer.run` (lines 145-157): while the
shutdown event is unset (modelled as the check index being below
`shutAt`), poll the listening socket; on an accepted connection spawn and
register a worker; reap completed workers.  An exception from
`select`/`accept` aborts the loop immediately. -/
def acceptLoop (ev : Nat → AEv) (shutAt : Nat) :
    Nat → Nat → List Nat → AcceptResult
  | 0, k, ws => ⟨0, false, ws, k⟩
  | fuel + 1, k, ws =>
    if shutAt ≤ k then ⟨0, false, ws, k⟩
    else
      match ev k with
      | .err => ⟨0, true, ws, k⟩
      | .timeout => acceptLoop ev shutAt fuel (k + 1) (reap ws)
      | .conn life =>
        let r := acceptLoop ev shutAt fuel (k + 1) (reap (ws ++ [life]))
        ⟨r.accepted + 1, r.crashed, r.workers, r.kAfter⟩

/-- The drain loop of `LoggingServer.run` (lines 159-167): while the
registry is non-empty, wait on the force event with the poll timeout; if
it is set (from drain-iteration `forceAtD` on), call `force_shutdown()` on
every registered worker and break; otherwise reap completed workers.
Returns whether workers were force-flagged and the registry at loop
exit. -/
def drainLoop (forceAtD : Nat) : Nat → Nat → List Nat → Bool × List Nat
  | 0, _, ws => (false, ws)
  | fuel + 1, j, ws =>
    if ws = [] then (false, ws)
    else if forceAtD ≤ j then (true, ws)
    else drainLoop forceAtD fuel (j + 1) (reap ws)

/-- Observable outcome of one execution of `LoggingServer.run`. -/
structure SrvResult where
  accepted : Nat
  /-- An exception escaped `run` (the drain loop and the final join were
  skipped; only the listening socket's context manager ran). -/
  crashed : Bool
  /-- `force_shutdown()` was invoked on registered workers. -/
  forcedWorkers : Bool
  /-- The drain loop of lines 159-167 was reached. -/
  drainRan : Bool
  /-- The final blocking join of lines 168-169 was reached. -/
  finalJoinRan : Bool
  /-- Workers still live when the process left `run` (never reaped nor
  joined). -/
  liveAtExit : List Nat
deriving DecidableEq, Repr

/-- `LoggingServer.run` (lines 132-169): the accept loop, then — unless an
exception escaped it — the drain loop followed by the final blocking join
of every still-registered worker (after which no worker is live). -/
def serverRun (ev : Nat → AEv) (shutAt forceAtD fuelA fuelD : Nat) :
    SrvResult :=
  let a := acceptLoop ev shutAt fuelA 0 []
  if a.crashed then
    ⟨a.accepted, true, false, false, false, a.workers⟩
  else
    let d := drainLoop forceAtD fuelD 0 a.workers
    ⟨a.accepted, false, d.1, true, true, []⟩

/-- Upper bound on the remaining lifetime of any registered worker. -/
def wsBound (ws : List Nat) : Nat :=
  ws.foldr max 0

/-- A concrete deserializer oracle used in counterexamples and witnesses:
only the one-byte payload `[7]` unpickles (to the record `7`); every other
payload raises. -/
def deserEx : List Byte → Option Nat :=
  fun bs => if bs = [7] then some 7 else none

/-- A concrete accept-loop event stream: one connection at the first poll,
timeouts afterwards. -/
def evEx : Nat → AEv :=
  fun j => if j = 0 then AEv.conn 3 else AEv.timeout

/-- A variant of `evEx` that differs only at poll indices at or beyond the
shutdown observation. -/
def evEx2 : Nat → AEv :=
  fun j => if j = 0 then AEv.conn 3 else if j = 1 then AEv.timeout else AEv.err

/-- A concrete accept-loop event stream whose second poll raises. -/
def evErr : Nat → AEv :=
  fun j => if j = 0 then AEv.conn 5 else AEv.err

/-! ## Lemmas about the polling read `_recv_chunk` -/

theorem take_length_take (data : List Byte) (amt : Nat) :
    data.take (data.take amt).length = data.take amt := by
  rcases Nat.le_total amt data.length with h | h
  · rw [List.length_take, Nat.min_eq_left h]
  · rw [List.length_take, Nat.min_eq_right h, List.take_length,
      List.take_of_length_le h]

/-- Structural invariant of the polling loop: it only ever moves a prefix
of the pending stream into the accumulator, never loses or reorders bytes,
and never accumulates past `chunkSize`; the check index only grows, and
when the peer has closed there are no timeout iterations, so the index
grows by at most one per delivered byte. -/
theorem recvChunkAux_spec (forceAt chunkSize : Nat) :
    ∀ (fuel : Nat) (chunk : List Byte) (k : Nat) (data : List Byte)
      (closed : Bool) (sched : List Nat), chunk.length ≤ chunkSize →
      ∃ t k2 s2,
        recvChunkAux forceAt chunkSize fuel chunk k data closed sched =
          (chunk ++ t, k2, data.drop t.length, s2) ∧
        data.take t.length = t ∧
        chunk.length + t.length ≤ chunkSize ∧
        k ≤ k2 ∧
        (closed = true → k2 ≤ k + t.length) := by
  intro fuel
  induction fuel with
  | zero =>
    intro chunk k data closed sched hlen
    exact ⟨[], k, sched, by simp [recvChunkAux], by simp, by simpa, le_rfl,
      fun _ => by simp⟩
  | succ fuel ih =>
    intro chunk k data closed sched hlen
    simp only [recvChunkAux]
    split
    · exact ⟨[], k, sched, by simp, by simp, by simpa, le_rfl,
        fun _ => by simp⟩
    · rename_i hcond
      split
      · rename_i hempty
        obtain ⟨t, k2, s2, heq, htake, hle, hk, _⟩ :=
          ih chunk (k + 1) data closed sched hlen
        exact ⟨t, k2, s2, heq, htake, hle, le_trans (Nat.le_succ k) hk,
          fun hc => absurd hc (by simp [hempty.2])⟩
      · split
        · exact ⟨[], k, List.tail sched, by simp, by simp, by simpa, le_rfl,
            fun _ => by simp⟩
        · rename_i hne
          have hlt : chunk.length < chunkSize := by
            rcases Nat.lt_or_ge chunk.length chunkSize with h | h
            · exact h
            · exact absurd (Or.inr h) hcond
          have hlen2 :
              (chunk ++ data.take (min (chunkSize - chunk.length)
                (max (sched.headD (chunkSize - chunk.length)) 1))).length ≤
                chunkSize := by
            rw [List.length_append, List.length_take]
            omega
          obtain ⟨t2, k2, s2, heq, htake, hle, hk, hcl⟩ :=
            ih _ (k + 1) _ closed (List.tail sched) hlen2
          refine ⟨data.take (min (chunkSize - chunk.length)
              (max (sched.headD (chunkSize - chunk.length)) 1)) ++ t2,
            k2, s2, ?_, ?_, ?_, le_trans (Nat.le_succ k) hk, ?_⟩
          · rw [heq, List.append_assoc, List.length_append, List.drop_drop,
              Nat.add_comm]
          · rw [List.length_append, List.take_add, take_length_take,
              htake]
          · rw [List.length_append] at hle ⊢
            omega
          · intro hc
            have hpos : 0 < (data.take (min (chunkSize - chunk.length)
                (max (sched.headD (chunkSize - chunk.length)) 1))).length :=
              List.length_pos.mpr hne
            rw [List.length_append]
            exact (hcl hc).trans (by omega)

/-- Completeness of the polling loop: when the peer has closed after
sending at least the needed bytes and the force flag is not set before the
read can finish, the loop accumulates exactly the requested bytes from the
front of the stream, incrementing the check index at most once per byte
delivered. -/
theorem recvChunkAux_complete (forceAt chunkSize : Nat) :
    ∀ (fuel : Nat) (chunk : List Byte) (k : Nat) (data : List Byte)
      (sched : List Nat),
      chunk.length ≤ chunkSize →
      chunkSize ≤ chunk.length + data.length →
      k + (chunkSize - chunk.length) ≤ forceAt →
      chunkSize - chunk.length < fuel →
      ∃ k2 s2,
        recvChunkAux forceAt chunkSize fuel chunk k data true sched =
          (chunk ++ data.take (chunkSize - chunk.length), k2,
            data.drop (chunkSize - chunk.length), s2) ∧
        k2 ≤ k + (chunkSize - chunk.length) := by
  intro fuel
  induction fuel with
  | zero =>
    intro chunk k data sched _ _ _ hfuel
    exact absurd hfuel (Nat.not_lt_zero _)
  | succ fuel ih =>
    intro chunk k data sched hlen hav hforce hfuel
    simp only [recvChunkAux]
    split
    · rename_i hcond
      have hwant : chunkSize - chunk.length = 0 := by
        rcases hcond with h | h
        · omega
        · omega
      exact ⟨k, sched, by simp [hwant], by omega⟩
    · rename_i hcond
      have hlt : chunk.length < chunkSize := by omega
      split
      · rename_i hempty
        exact absurd hempty.2 (by simp)
      · split
        · rename_i htk
          have hdne : data ≠ [] := by
            intro h
            subst h
            simp at hav
            omega
          have : data.take (min (chunkSize - chunk.length)
              (max (sched.headD (chunkSize - chunk.length)) 1)) ≠ [] := by
            have h1 : 1 ≤ min (chunkSize - chunk.length)
                (max (sched.headD (chunkSize - chunk.length)) 1) := by
              omega
            cases data with
            | nil => exact absurd rfl hdne
            | cons a l =>
              rw [List.take_cons h1]
              simp
          exact absurd htk this
        · rename_i htk
          have htl : (data.take (min (chunkSize - chunk.length)
                (max (sched.headD (chunkSize - chunk.length)) 1))).length ≤
              chunkSize - chunk.length := by
            rw [List.length_take]
            omega
          have htpos : 0 < (data.take (min (chunkSize - chunk.length)
                (max (sched.headD (chunkSize - chunk.length)) 1))).length :=
            List.length_pos.mpr htk
          have htdl : (data.take (min (chunkSize - chunk.length)
                (max (sched.headD (chunkSize - chunk.length)) 1))).length ≤
              data.length := by
            rw [List.length_take]
            omega
          obtain ⟨k2, s2, heq, hk⟩ := ih
            (chunk ++ data.take (min (chunkSize - chunk.length)
              (max (sched.headD (chunkSize - chunk.length)) 1)))
            (k + 1)
            (data.drop (data.take (min (chunkSize - chunk.length)
              (max (sched.headD (chunkSize - chunk.length)) 1))).length)
            (List.tail sched)
            (by rw [List.length_append]; omega)
            (by rw [List.length_append, List.length_drop]; omega)
            (by rw [List.length_append]; omega)
            (by rw [List.length_append]; omega)
          refine ⟨k2, s2, ?_, ?_⟩
          · rw [heq, List.append_assoc, List.drop_drop, List.length_append]
            have h1 : (data.take (min (chunkSize - chunk.length)
                  (max (sched.headD (chunkSize - chunk.length)) 1))).length +
                (chunkSize - (chunk.length +
                  (data.take (min (chunkSize - chunk.length)
                    (max (sched.headD (chunkSize - chunk.length)) 1))).length)) =
                chunkSize - chunk.length := by
              omega
            have h2 : data.take (chunkSize - chunk.length) =
                data.take (min (chunkSize - chunk.length)
                  (max (sched.headD (chunkSize - chunk.length)) 1)) ++
                (data.drop (data.take (min (chunkSize - chunk.length)
                  (max (sched.headD (chunkSize - chunk.length)) 1))).length).take
                  (chunkSize - (chunk.length +
                    (data.take (min (chunkSize - chunk.length)
                      (max (sched.headD (chunkSize - chunk.length)) 1))).length)) := by
              conv_lhs => rw [← h1]
              rw [List.take_add, take_length_take]
            rw [h1, h2]
          · rw [List.length_append] at hk
            omega

/-- `_recv_chunk` only ever consumes a prefix of the pending stream and
returns either that complete prefix of the exact requested length or the
empty byte string. -/
theorem recvChunk_spec (forceAt chunkSize k : Nat) (data : List Byte)
    (closed : Bool) (sched : List Nat) :
    ∃ t k2 s2,
      recvChunk forceAt chunkSize k data closed sched =
        ((if t.length = chunkSize then t else []), k2, data.drop t.length, s2) ∧
      data.take t.length = t ∧
      t.length ≤ chunkSize ∧
      t.length ≤ data.length ∧
      k ≤ k2 := by
  obtain ⟨t, k2, s2, heq, htake, hle, hk, _⟩ :=
    recvChunkAux_spec forceAt chunkSize (chunkFuel forceAt k data) [] k data
      closed sched (by simp)
  refine ⟨t, k2, s2, ?_, htake, by simpa using hle, ?_, hk⟩
  · simp only [recvChunk, heq, List.nil_append]
  · conv_lhs => rw [← htake]
    rw [List.length_take]
    omega

/-- `_recv_chunk` when the peer has closed after sending at least the
requested byte count and the force flag cannot fire during the read: the
call returns exactly the first `chunkSize` pending bytes and advances the
check index by at most `chunkSize`. -/
theorem recvChunk_complete (forceAt chunkSize k : Nat) (data : List Byte)
    (sched : List Nat) (hav : chunkSize ≤ data.length)
    (hforce : k + chunkSize ≤ forceAt) :
    ∃ k2 s2,
      recvChunk forceAt chunkSize k data true sched =
        (data.take chunkSize, k2, data.drop chunkSize, s2) ∧
      k2 ≤ k + chunkSize := by
  obtain ⟨k2, s2, heq, hk⟩ :=
    recvChunkAux_complete forceAt chunkSize (chunkFuel forceAt k data) [] k
      data sched (by simp) (by simpa) (by simpa)
      (by simp only [List.length_nil, Nat.sub_zero, chunkFuel]; omega)
  simp only [List.length_nil, Nat.sub_zero, List.nil_append] at heq hk
  refine ⟨k2, s2, ?_, hk⟩
  simp only [recvChunk, heq]
  rw [if_pos (by rw [List.length_take]; omega)]

/-- `_recv_chunk` when the peer closed the connection before the requested
byte count could ever arrive: the call returns the empty byte string (the
partially accumulated data is discarded). -/
theorem recvChunk_short (forceAt chunkSize k : Nat) (data : List Byte)
    (closed : Bool) (sched : List Nat) (h : data.length < chunkSize) :
    (recvChunk forceAt chunkSize k data closed sched).1 = [] := by
  obtain ⟨t, k2, s2, heq, htake, hle, hdl, hk⟩ :=
    recvChunk_spec forceAt chunkSize k data closed sched
  rw [heq]
  simp only
  rw [if_neg (by omega)]

/-- `_recv_chunk` entered with the force flag already set performs no poll
at all: the loop condition fails at once and the empty byte string is
returned with the stream untouched and the check index unchanged. -/
theorem recvChunk_forced (forceAt chunkSize k : Nat) (data : List Byte)
    (closed : Bool) (sched : List Nat) (h : forceAt ≤ k) :
    recvChunk forceAt chunkSize k data closed sched = ([], k, data, sched) := by
  simp [recvChunk, chunkFuel, recvChunkAux, h]

/-- `_recv_chunk(0)`: the loop body never runs and the accumulated empty
chunk passes the final length check, so the returned value is the empty
byte string — indistinguishable from the closed-connection signal. -/
theorem recvChunk_zero (forceAt k : Nat) (data : List Byte) (closed : Bool)
    (sched : List Nat) :
    recvChunk forceAt 0 k data closed sched = ([], k, data, sched) := by
  simp [recvChunk, chunkFuel, recvChunkAux]

/-! ## Lemmas about the length prefix -/

theorem pack32_length (L : Nat) : (pack32 L).length = 4 := rfl

theorem pack32_ne_nil (L : Nat) : pack32 L ≠ [] := by
  simp [pack32]

/-- Round trip of the big-endian length prefix for any length below
`2 ^ 32`. -/
theorem unpack32_pack32 (L : Nat) (h : L < 2 ^ 32) :
    unpack32 (pack32 L) = some L := by
  simp only [pack32, unpack32, Option.some.injEq]
  norm_num
  omega

/-- `struct.unpack` cannot fail on a 4-byte input. -/
theorem unpack32_length_four (b : List Byte) (h : b.length = 4) :
    unpack32 b ≠ none := by
  cases b with
  | nil => simp at h
  | cons b0 t0 =>
    cases t0 with
    | nil => simp at h
    | cons b1 t1 =>
      cases t1 with
      | nil => simp at h
      | cons b2 t2 =>
        cases t2 with
        | nil => simp at h
        | cons b3 t3 =>
          cases t3 with
          | nil => simp [unpack32]
          | cons b4 t4 => simp at h

/-! ## Lemmas about the worker read loop -/

/-- `_recv_chunk` on an exhausted stream whose peer has closed: the first
poll reports readability, `recv` returns zero bytes, and the loop breaks
at once with the empty chunk. -/
theorem recvChunk_nil_closed (forceAt chunkSize k : Nat) (sched : List Nat)
    (hcs : 0 < chunkSize) (hk : k < forceAt) :
    recvChunk forceAt chunkSize k [] true sched = ([], k, [], sched.tail) := by
  have h1 : ¬(forceAt ≤ k ∨ chunkSize ≤ ([] : List Byte).length) := by
    simp
    omega
  simp [recvChunk, chunkFuel, recvChunkAux, h1, Nat.ne_of_gt hcs,
    Nat.not_le.mpr hk]

/-- One iteration of the worker loop with the force flag already set: the
`while not self._force_shutdown` condition fails immediately, no read is
attempted, and line 92 releases the socket. -/
theorem runAux_forced {Rec : Type} (deser : List Byte → Option Rec)
    (forceAt fuel k : Nat) (data : List Byte) (closed : Bool)
    (sched : List Nat) (h : forceAt ≤ k) :
    runAux deser forceAt (fuel + 1) k data closed sched =
      ⟨[], [], .forced, true, true, k, data⟩ := by
  simp [runAux, h]

/-- The worker loop at a closed, fully drained connection: the prefix read
returns the empty byte string and the loop exits as natural EOF, running
line 92. -/
theorem runAux_nil {Rec : Type} (deser : List Byte → Option Rec)
    (forceAt fuel k : Nat) (sched : List Nat) (hk : k < forceAt) :
    runAux deser forceAt fuel k [] true sched =
      ⟨[], [], .eof, true, true, k, []⟩ := by
  cases fuel with
  | zero => simp [runAux]
  | succ fuel =>
    simp only [runAux, recvChunk_nil_closed forceAt 4 k sched (by omega) hk]
    rw [if_neg (by omega)]
    simp

/-- One full frame at the head of the stream, with a payload the
deserializer accepts: the worker reads the prefix, unpacks the length,
reads the payload, deserializes and dispatches it, and continues with the
rest of the stream; the check index advances by at most one per byte of
the frame. -/
theorem runAux_step {Rec : Type} (deser : List Byte → Option Rec)
    (forceAt fuel k : Nat) (P rest : List Byte) (sched : List Nat) (r : Rec)
    (hP : P ≠ []) (hL : P.length < 2 ^ 32) (hd : deser P = some r)
    (hforce : k + 4 + P.length ≤ forceAt) :
    ∃ k2 s2,
      runAux deser forceAt (fuel + 1) k (encodeFrame P ++ rest) true sched =
        (let res := runAux deser forceAt fuel k2 rest true s2
         ⟨r :: res.dispatched, P :: res.attempts, res.exit,
           res.shutdownCalled, res.sockClosed, res.k, res.dataLeft⟩) ∧
      k2 ≤ k + 4 + P.length := by
  have h4 : (pack32 P.length).length = 4 := rfl
  obtain ⟨k1, s1, heq1, hk1⟩ :=
    recvChunk_complete forceAt 4 k (pack32 P.length ++ (P ++ rest)) sched
      (by rw [List.length_append, h4]; omega) (by omega)
  have htk : (pack32 P.length ++ (P ++ rest)).take 4 = pack32 P.length := by
    conv_lhs => rw [← h4]
    exact List.take_left _ _
  have hdr : (pack32 P.length ++ (P ++ rest)).drop 4 = P ++ rest := by
    conv_lhs => rw [← h4]
    exact List.drop_left _ _
  rw [htk, hdr] at heq1
  obtain ⟨k2, s2, heq2, hk2⟩ :=
    recvChunk_complete forceAt P.length k1 (P ++ rest) s1
      (by rw [List.length_append]; omega) (by omega)
  rw [List.take_left, List.drop_left] at heq2
  refine ⟨k2, s2, ?_, by omega⟩
  have hdata : encodeFrame P ++ rest = pack32 P.length ++ (P ++ rest) := by
    rw [encodeFrame, List.append_assoc]
  simp only [runAux, hdata, heq1, heq2, unpack32_pack32 P.length hL]
  rw [if_neg (by omega), if_neg (pack32_ne_nil P.length), if_neg hP, hd]

theorem encodeFrame_length (P : List Byte) :
    (encodeFrame P).length = 4 + P.length := by
  simp [encodeFrame, pack32]
  omega

/-- One full frame at the head of the stream whose payload the
deserializer rejects: the worker reads the prefix and the payload, the
deserialization attempt raises, and the exception propagates out of the
loop — no record is dispatched, line 92 is skipped (the socket is closed
by the context manager only), and the rest of the stream is never read. -/
theorem runAux_step_fail {Rec : Type} (deser : List Byte → Option Rec)
    (forceAt fuel k : Nat) (P rest : List Byte) (sched : List Nat)
    (hP : P ≠ []) (hL : P.length < 2 ^ 32) (hd : deser P = none)
    (hforce : k + 4 + P.length ≤ forceAt) :
    ∃ k2,
      runAux deser forceAt (fuel + 1) k (encodeFrame P ++ rest) true sched =
        ⟨[], [P], .deserErr, false, true, k2, rest⟩ ∧
      k2 ≤ k + 4 + P.length := by
  have h4 : (pack32 P.length).length = 4 := rfl
  obtain ⟨k1, s1, heq1, hk1⟩ :=
    recvChunk_complete forceAt 4 k (pack32 P.length ++ (P ++ rest)) sched
      (by rw [List.length_append, h4]; omega) (by omega)
  have htk : (pack32 P.length ++ (P ++ rest)).take 4 = pack32 P.length := by
    conv_lhs => rw [← h4]
    exact List.take_left _ _
  have hdr : (pack32 P.length ++ (P ++ rest)).drop 4 = P ++ rest := by
    conv_lhs => rw [← h4]
    exact List.drop_left _ _
  rw [htk, hdr] at heq1
  obtain ⟨k2, s2, heq2, hk2⟩ :=
    recvChunk_complete forceAt P.length k1 (P ++ rest) s1
      (by rw [List.length_append]; omega) (by omega)
  rw [List.take_left, List.drop_left] at heq2
  refine ⟨k2, ?_, by omega⟩
  have hdata : encodeFrame P ++ rest = pack32 P.length ++ (P ++ rest) := by
    rw [encodeFrame, List.append_assoc]
  simp only [runAux, hdata, heq1, heq2, unpack32_pack32 P.length hL]
  rw [if_neg (by omega), if_neg (pack32_ne_nil P.length), if_neg hP, hd]

/-- A whole closed connection carrying a sequence of well-formed frames:
the worker dispatches one record per frame, in frame order, ending in
natural EOF with the socket shut down and closed and the stream fully
consumed. -/
theorem runAux_frames {Rec : Type} (deser : List Byte → Option Rec)
    (forceAt : Nat) :
    ∀ (frames : List (List Byte)) (recs : List Rec) (fuel k : Nat)
      (sched : List Nat),
      (∀ P ∈ frames, P ≠ [] ∧ P.length < 2 ^ 32) →
      frames.map deser = recs.map some →
      k + (framesData frames).length < forceAt →
      (framesData frames).length < fuel →
      ∃ k2,
        runAux deser forceAt fuel k (framesData frames) true sched =
          ⟨recs, frames, .eof, true, true, k2, []⟩ := by
  intro frames
  induction frames with
  | nil =>
    intro recs fuel k sched _ hmap hforce hfuel
    have hrecs : recs = [] := by
      cases recs with
      | nil => rfl
      | cons r rs => simp at hmap
    subst hrecs
    simp only [framesData, List.map_nil, List.flatten_nil] at hforce hfuel ⊢
    exact ⟨k, runAux_nil deser forceAt fuel k sched (by omega)⟩
  | cons P fs ih =>
    intro recs fuel k sched hval hmap hforce hfuel
    cases recs with
    | nil => simp at hmap
    | cons r rs =>
      simp only [List.map_cons, List.cons.injEq] at hmap
      obtain ⟨hdP, hmaps⟩ := hmap
      have hcons : framesData (P :: fs) = encodeFrame P ++ framesData fs := by
        simp [framesData]
      rw [hcons, List.length_append, encodeFrame_length] at hforce hfuel
      cases fuel with
      | zero => omega
      | succ f =>
        obtain ⟨hPne, hPlen⟩ := hval P (by simp)
        obtain ⟨k2, s2, heq, hk2⟩ :=
          runAux_step deser forceAt f k P (framesData fs) sched r hPne hPlen
            hdP (by omega)
        obtain ⟨k3, heq3⟩ := ih rs f k2 s2
          (fun Q hQ => hval Q (by simp [hQ]))
          hmaps (by omega) (by omega)
        refine ⟨k3, ?_⟩
        rw [hcons, heq, heq3]

/-- The length-prefix `struct.unpack` can never raise: every prefix read
either returns exactly 4 bytes or the empty string, and the empty string
breaks the loop before the unpack runs. -/
theorem runAux_exit_ne_structErr {Rec : Type} (deser : List Byte → Option Rec)
    (forceAt : Nat) :
    ∀ (fuel k : Nat) (data : List Byte) (closed : Bool) (sched : List Nat),
      (runAux deser forceAt fuel k data closed sched).exit ≠ .structErr := by
  intro fuel
  induction fuel with
  | zero =>
    intro k data closed sched
    simp [runAux]
  | succ fuel ih =>
    intro k data closed sched
    obtain ⟨t, k1, s1, heq, htake, hle, hdl, hk⟩ :=
      recvChunk_spec forceAt 4 k data closed sched
    by_cases hf : forceAt ≤ k
    · simp [runAux, hf]
    · by_cases h4 : t.length = 4
      · have htne : t ≠ [] := by
          intro h
          rw [h] at h4
          simp at h4
        rw [if_pos h4] at heq
        cases hu : unpack32 t with
        | none => exact absurd hu (unpack32_length_four t h4)
        | some len =>
          obtain ⟨t2, k2b, s2b, heq2, ht2, hl2, hd2, hk2⟩ :=
            recvChunk_spec forceAt len k1 (data.drop t.length) closed s1
          by_cases hpl : t2.length = len
          · rw [if_pos hpl] at heq2
            by_cases ht2e : t2 = []
            · subst ht2e
              simp [runAux, heq, if_neg hf, if_neg htne, hu, heq2]
            · cases hds : deser t2 with
              | none =>
                simp [runAux, heq, if_neg hf, if_neg htne, hu, heq2,
                  if_neg ht2e, hds]
              | some r =>
                simp only [runAux, heq, if_neg hf, if_neg htne, hu, heq2,
                  if_neg ht2e, hds]
                exact ih _ _ closed _
          · rw [if_neg hpl] at heq2
            simp [runAux, heq, if_neg hf, if_neg htne, hu, heq2]
      · rw [if_neg h4] at heq
        simp [runAux, heq, if_neg hf]

/-- Socket-release accounting for every exit path of the worker loop: the
socket is always closed (the `with` context manager), and line 92's
`shutdown(SHUT_RDWR)` runs exactly on the non-exceptional exits (natural
EOF and forced stop) — an exception raised while processing a frame skips
it. -/
theorem runAux_release {Rec : Type} (deser : List Byte → Option Rec)
    (forceAt : Nat) :
    ∀ (fuel k : Nat) (data : List Byte) (closed : Bool) (sched : List Nat),
      (runAux deser forceAt fuel k data closed sched).sockClosed = true ∧
      ((runAux deser forceAt fuel k data closed sched).shutdownCalled = true ↔
        ((runAux deser forceAt fuel k data closed sched).exit = .eof ∨
         (runAux deser forceAt fuel k data closed sched).exit = .forced)) := by
  intro fuel
  induction fuel with
  | zero =>
    intro k data closed sched
    simp [runAux]
  | succ fuel ih =>
    intro k data closed sched
    simp only [runAux]
    split
    · simp
    · split
      · simp
      · split
        · simp
        · split
          · simp
          · split
            · simp
            · exact ih _ _ closed _

/-! ## Lemmas about the Listener (`LoggingServer.run`) -/

/-- The accept loop never examines a poll outcome at or after the check
that observes the shutdown event: the whole run of the Listener is
unchanged if those outcomes are replaced arbitrarily — in particular no
connection offered after the shutdown observation is accepted. -/
theorem acceptLoop_congr (shutAt : Nat) (ev ev2 : Nat → AEv)
    (h : ∀ j, j < shutAt → ev j = ev2 j) :
    ∀ (fuel k : Nat) (ws : List Nat),
      acceptLoop ev shutAt fuel k ws = acceptLoop ev2 shutAt fuel k ws := by
  intro fuel
  induction fuel with
  | zero =>
    intro k ws
    rfl
  | succ fuel ih =>
    intro k ws
    simp only [acceptLoop]
    by_cases hk : shutAt ≤ k
    · simp [hk]
    · rw [if_neg hk, if_neg hk, ← h k (by omega)]
      cases hek : ev k with
      | err => rfl
      | timeout => simpa using ih (k + 1) (reap ws)
      | conn life => simp [ih (k + 1) (reap (ws ++ [life]))]

/-- Combined lifetime measure of the registry (sum of remaining lifetimes
plus worker count): it strictly shrinks under each reaping pass. -/
def wsMeasure (ws : List Nat) : Nat :=
  ws.foldr (fun a acc => a + 1 + acc) 0

theorem wsMeasure_reap : ∀ ws : List Nat,
    wsMeasure (reap ws) ≤ wsMeasure ws - 1 := by
  intro ws
  induction ws with
  | nil => simp [wsMeasure, reap]
  | cons a t ih =>
    by_cases h : 0 < a - 1
    · have hr : reap (a :: t) = (a - 1) :: reap t := by
        simp only [reap, List.map_cons, List.filter_cons]
        rw [if_pos (by simpa using h)]
      rw [hr]
      simp only [wsMeasure, List.foldr_cons] at ih ⊢
      omega
    · have hr : reap (a :: t) = reap t := by
        simp only [reap, List.map_cons, List.filter_cons]
        rw [if_neg (by simpa using h)]
      rw [hr]
      simp only [wsMeasure, List.foldr_cons] at ih ⊢
      omega

theorem wsMeasure_pos (ws : List Nat) (h : ws ≠ []) : 0 < wsMeasure ws := by
  cases ws with
  | nil => exact absurd rfl h
  | cons a t =>
    simp only [wsMeasure, List.foldr_cons]
    omega

/-- The drain loop when the force event is never set: it keeps reaping
until the registry is empty, returns only then, and never force-flags a
worker. -/
theorem drainLoop_graceful (forceAtD : Nat) :
    ∀ (fuel j : Nat) (ws : List Nat),
      wsMeasure ws < fuel → j + fuel ≤ forceAtD →
      drainLoop forceAtD fuel j ws = (false, []) := by
  intro fuel
  induction fuel with
  | zero =>
    intro j ws hb _
    omega
  | succ fuel ih =>
    intro j ws hb hf
    by_cases hws : ws = []
    · simp [drainLoop, hws]
    · have h1 : 0 < wsMeasure ws := wsMeasure_pos ws hws
      have h2 := wsMeasure_reap ws
      simp only [drainLoop]
      rw [if_neg hws, if_neg (by omega)]
      exact ih (j + 1) (reap ws) (by omega) (by omega)

/-- The drain loop the moment the force event is set while workers remain
registered: every registered worker is force-flagged and the loop breaks
immediately. -/
theorem drainLoop_forced (forceAtD fuel j : Nat) (ws : List Nat)
    (hws : ws ≠ []) (hj : forceAtD ≤ j) :
    drainLoop forceAtD (fuel + 1) j ws = (true, ws) := by
  simp [drainLoop, hws, hj]

/-- An exception in the accept loop (from `select`/`accept`) reaches the
top of `run` uncaught: the loop result is marked crashed at the first err
poll outcome. -/
theorem acceptLoop_err (ev : Nat → AEv) (shutAt : Nat) :
    ∀ (fuel k : Nat) (ws : List Nat) (j0 : Nat),
      k ≤ j0 → j0 < shutAt → ev j0 = .err →
      (∀ j, k ≤ j → j < j0 → ev j ≠ .err) →
      j0 - k < fuel →
      (acceptLoop ev shutAt fuel k ws).crashed = true := by
  intro fuel
  induction fuel with
  | zero =>
    intro k ws j0 _ _ _ _ hfuel
    omega
  | succ fuel ih =>
    intro k ws j0 hkj hjs hj0 hbefore hfuel
    simp only [acceptLoop]
    rw [if_neg (by omega)]
    by_cases hkeq : k = j0
    · subst hkeq
      rw [hj0]
    · have hklt : k < j0 := by omega
      cases hek : ev k with
      | err => exact absurd hek (hbefore k le_rfl hklt)
      | timeout =>
        exact ih (k + 1) (reap ws) j0 (by omega) hjs hj0
          (fun j h1 h2 => hbefore j (by omega) h2) (by omega)
      | conn life =>
        exact ih (k + 1) (reap (ws ++ [life])) j0 (by omega) hjs hj0
          (fun j h1 h2 => hbefore j (by omega) h2) (by omega)

/-- `LoggingServer.run` when the accept loop raised: the exception
propagates out of `run` — the drain loop and the final join never execute,
no worker is force-flagged, and the registered workers are abandoned. -/
theorem serverRun_crash (ev : Nat → AEv) (shutAt forceAtD fuelA fuelD : Nat)
    (h : (acceptLoop ev shutAt fuelA 0 []).crashed = true) :
    serverRun ev shutAt forceAtD fuelA fuelD =
      ⟨(acceptLoop ev shutAt fuelA 0 []).accepted, true, false, false, false,
        (acceptLoop ev shutAt fuelA 0 []).workers⟩ := by
  simp [serverRun, h]

/-- `LoggingServer.run` under a purely graceful shutdown: the accept loop
ends at the shutdown observation, the drain loop reaps until the registry
is empty without force-flagging anyone, and the final join runs, leaving
no live worker. -/
theorem serverRun_graceful (ev : Nat → AEv)
    (shutAt forceAtD fuelA fuelD : Nat)
    (hnc : (acceptLoop ev shutAt fuelA 0 []).crashed = false)
    (hm : wsMeasure (acceptLoop ev shutAt fuelA 0 []).workers < fuelD)
    (hforce : fuelD ≤ forceAtD) :
    serverRun ev shutAt forceAtD fuelA fuelD =
      ⟨(acceptLoop ev shutAt fuelA 0 []).accepted, false, false, true, true,
        []⟩ := by
  simp [serverRun, hnc, drainLoop_graceful forceAtD fuelD 0
    (acceptLoop ev shutAt fuelA 0 []).workers hm (by omega)]

/-! ## Claim theorems -/

/-- C1 counterexample: on one connection carrying a malformed one-byte
payload `[9]` followed by a well-formed frame `[7]`, the worker dispatches
no record at all — not exactly one — and the loop dies on the
deserialization exception instead of continuing to the next frame, so the
claim is false on the code. -/
theorem C1_counterexample :
    (workerRun deserEx 1000 0 (encodeFrame [9] ++ encodeFrame [7]) true
      []).dispatched = [] ∧
    (workerRun deserEx 1000 0 (encodeFrame [9] ++ encodeFrame [7]) true
      []).exit = WExit.deserErr ∧
    ¬(workerRun deserEx 1000 0 (encodeFrame [9] ++ encodeFrame [7]) true
      []).dispatched = [7] := by
  decide

/-- C1 (amended): a deserialization failure is not frame-local: the
exception from `_makeLogRecord` propagates out of the read loop, so the
worker stops at that frame, dispatches nothing, never reads the following
bytes, skips line 92's `shutdown(SHUT_RDWR)`, and the socket is closed
only by the context manager — a malformed payload followed by a
well-formed frame yields zero dispatched records. -/
theorem C1_thm {Rec : Type} (deser : List Byte → Option Rec)
    (forceAt k : Nat) (B rest : List Byte) (sched : List Nat)
    (hB : B ≠ []) (hL : B.length < 2 ^ 32) (hd : deser B = none)
    (hforce : k + 4 + B.length ≤ forceAt) :
    ∃ k2,
      workerRun deser forceAt k (encodeFrame B ++ rest) true sched =
        ⟨[], [B], WExit.deserErr, false, true, k2, rest⟩ := by
  obtain ⟨k2, heq, _⟩ :=
    runAux_step_fail deser forceAt (encodeFrame B ++ rest).length k B rest
      sched hB hL hd hforce
  exact ⟨k2, heq⟩

/-- C1 witness: the amended claim at the concrete malformed/well-formed
pair of frames. -/
theorem C1_witness :
    ∃ k2,
      workerRun deserEx 1000 0 (encodeFrame [9] ++ encodeFrame [7]) true [] =
        ⟨[], [[9]], WExit.deserErr, false, true, k2, encodeFrame [7]⟩ :=
  C1_thm deserEx 1000 0 [9] (encodeFrame [7]) [] (by decide) (by decide)
    (by decide) (by decide)

/-- C2 counterexample: for the empty payload (`L = 0`) the worker makes no
deserialization attempt at all — `_recv_chunk(0)` returns the empty byte
string and the loop breaks — so the claim fails at `P = []`. -/
theorem C2_counterexample :
    (workerRun deserEx 1000 0 (encodeFrame []) true [] :
      RunResult Nat).attempts = [] ∧
    ¬(workerRun deserEx 1000 0 (encodeFrame []) true [] :
      RunResult Nat).attempts = [[]] := by
  decide

/-- C2 (amended): for every non-empty payload `P` with
`len(P) = L < 2 ^ 32`, feeding `[uint32(L)] ++ P` through the read loop
yields exactly one deserialization attempt, on exactly the bytes `P`; the
`L = 0` frame instead breaks the loop with no attempt. -/
theorem C2_thm {Rec : Type} (deser : List Byte → Option Rec) (forceAt k : Nat)
    (P : List Byte) (sched : List Nat) (hP : P ≠ [])
    (hL : P.length < 2 ^ 32) (hforce : k + 4 + P.length < forceAt) :
    (workerRun deser forceAt k (encodeFrame P) true sched).attempts = [P] := by
  have hdata : encodeFrame P = encodeFrame P ++ [] := (List.append_nil _).symm
  rw [workerRun, hdata]
  cases hds : deser P with
  | none =>
    obtain ⟨k2, heq, hk2⟩ :=
      runAux_step_fail deser forceAt (encodeFrame P ++ []).length k P [] sched
        hP hL hds (by omega)
    rw [heq]
  | some r =>
    obtain ⟨k2, s2, heq, hk2⟩ :=
      runAux_step deser forceAt (encodeFrame P ++ []).length k P [] sched r
        hP hL hds (by omega)
    rw [heq]
    show P ::
      (runAux deser forceAt (encodeFrame P ++ []).length k2 [] true
        s2).attempts = [P]
    have hk2f : k2 < forceAt := by omega
    have hnil := runAux_nil deser forceAt (encodeFrame P ++ []).length k2 s2
      hk2f
    rw [hnil]

/-- C2 witness: the amended claim at the one-byte payload `[7]`. -/
theorem C2_witness :
    (workerRun deserEx 1000 0 (encodeFrame [7]) true []).attempts = [[7]] :=
  C2_thm deserEx 1000 0 [7] [] (by decide) (by decide) (by decide)

/-- C3: `_recv_chunk(n)` returns a complete result only when exactly `n`
bytes were accumulated, and in every other case returns the empty byte
string — partial data is discarded. -/
theorem C3_thm (forceAt chunkSize k : Nat) (data : List Byte) (closed : Bool)
    (sched : List Nat) :
    (recvChunk forceAt chunkSize k data closed sched).1.length = chunkSize ∨
    (recvChunk forceAt chunkSize k data closed sched).1 = [] := by
  obtain ⟨t, k2, s2, heq, _, _, _, _⟩ :=
    recvChunk_spec forceAt chunkSize k data closed sched
  rw [heq]
  by_cases h : t.length = chunkSize
  · exact Or.inl (by simp [h])
  · exact Or.inr (by simp [h])

/-- C4: N well-formed frames sent in sequence on one connection produce N
dispatches to the sink, in frame order, and one deserialization attempt
per frame in the same order. -/
theorem C4_thm {Rec : Type} (deser : List Byte → Option Rec) (forceAt k : Nat)
    (frames : List (List Byte)) (recs : List Rec) (sched : List Nat)
    (hval : ∀ P ∈ frames, P ≠ [] ∧ P.length < 2 ^ 32)
    (hmap : frames.map deser = recs.map some)
    (hforce : k + (framesData frames).length < forceAt) :
    ∃ k2,
      workerRun deser forceAt k (framesData frames) true sched =
        ⟨recs, frames, WExit.eof, true, true, k2, []⟩ :=
  runAux_frames deser forceAt frames recs ((framesData frames).length + 1) k
    sched hval hmap hforce (by omega)

/-- C4 witness: two frames dispatched in order at a concrete
deserializer. -/
theorem C4_witness :
    ∃ k2,
      workerRun (fun bs => bs.head?) 1000 0 (framesData [[7], [9]]) true [] =
        ⟨[7, 9], [[7], [9]], WExit.eof, true, true, k2, []⟩ :=
  C4_thm (fun bs => bs.head?) 1000 0 [[7], [9]] [7, 9] [] (by decide)
    (by decide) (by decide)

/-- C5 counterexample: a malformed payload makes the loop exit by an
exception, and on that path line 92's `shutdown(SHUT_RDWR)` is *not*
executed (only the context-manager close runs), so the release is not
unconditional as claimed. -/
theorem C5_counterexample :
    (workerRun deserEx 1000 0 (encodeFrame [9]) true []).shutdownCalled =
      false ∧
    (workerRun deserEx 1000 0 (encodeFrame [9]) true []).exit =
      WExit.deserErr ∧
    (workerRun deserEx 1000 0 (encodeFrame [9]) true []).sockClosed = true := by
  decide

/-- C5 (amended): on every exit of the read loop the socket is closed (the
`with` context manager), but the shutdown-both-directions of line 92 runs
exactly on the non-exceptional exits — natural EOF and forced stop — and
is skipped when an error raised while processing a frame leaves the
loop. -/
theorem C5_thm {Rec : Type} (deser : List Byte → Option Rec)
    (forceAt fuel k : Nat) (data : List Byte) (closed : Bool)
    (sched : List Nat) :
    (runAux deser forceAt fuel k data closed sched).sockClosed = true ∧
    ((runAux deser forceAt fuel k data closed sched).shutdownCalled = true ↔
      ((runAux deser forceAt fuel k data closed sched).exit = WExit.eof ∨
       (runAux deser forceAt fuel k data closed sched).exit =
         WExit.forced)) :=
  runAux_release deser forceAt fuel k data closed sched

/-- C6: once the force flag is observed — at the next loop-condition check
after `shutdown(force=true)` reaches the worker, i.e. within one
poll-timeout interval — a worker blocked in `_recv_chunk` performs no
further poll (accumulator, stream, check index all untouched), the read
returns the empty byte string, the run loop exits as a forced stop with
the socket shut down and closed, and the server drain loop flags every
registered worker as soon as the force event is observed, all without any
peer activity. -/
theorem C6_thm {Rec : Type} (deser : List Byte → Option Rec)
    (forceAt chunkSize fuel fuelR k : Nat) (chunk data : List Byte)
    (closed : Bool) (sched : List Nat) (forceAtD fuelD j : Nat)
    (ws : List Nat) (hk : forceAt ≤ k) (hws : ws ≠ []) (hj : forceAtD ≤ j) :
    recvChunkAux forceAt chunkSize (fuel + 1) chunk k data closed sched =
      (chunk, k, data, sched) ∧
    recvChunk forceAt chunkSize k data closed sched = ([], k, data, sched) ∧
    runAux deser forceAt (fuelR + 1) k data closed sched =
      ⟨[], [], WExit.forced, true, true, k, data⟩ ∧
    drainLoop forceAtD (fuelD + 1) j ws = (true, ws) :=
  ⟨by simp [recvChunkAux, hk],
    recvChunk_forced forceAt chunkSize k data closed sched hk,
    runAux_forced deser forceAt fuelR k data closed sched hk,
    drainLoop_forced forceAtD fuelD j ws hws hj⟩

/-- C6 witness: the forced-shutdown behavior at a concrete mid-read worker
state and a concrete drain-loop state. -/
theorem C6_witness :
    recvChunkAux 0 4 (3 + 1) [1] 0 [2, 2] true [] = ([1], 0, [2, 2], []) ∧
    recvChunk 0 4 0 [2, 2] true [] = ([], 0, [2, 2], []) ∧
    runAux deserEx 0 (5 + 1) 0 [2, 2] true [] =
      ⟨[], [], WExit.forced, true, true, 0, [2, 2]⟩ ∧
    drainLoop 0 (7 + 1) 0 [3] = (true, [3]) :=
  C6_thm deserEx 0 4 3 5 0 [1] [2, 2] true [] 0 7 0 [3] (by decide)
    (by decide) (by decide)

/-- C7: after a graceful `shutdown(force=false)`: the accept loop never
examines a poll outcome at or beyond the index where the shutdown event is
observed (so no new connection is accepted after it); the drain loop never
force-flags a worker and returns only once the registry is empty; and the
whole server run reaches the final blocking join and exits with no live
worker. -/
theorem C7_thm (ev ev2 : Nat → AEv) (shutAt forceAtD fuelA fuelD fuel k : Nat)
    (ws : List Nat)
    (hev : ∀ j, j < shutAt → ev j = ev2 j)
    (hnc : (acceptLoop ev shutAt fuelA 0 []).crashed = false)
    (hm : wsMeasure (acceptLoop ev shutAt fuelA 0 []).workers < fuelD)
    (hforce : fuelD ≤ forceAtD) :
    acceptLoop ev shutAt fuel k ws = acceptLoop ev2 shutAt fuel k ws ∧
    drainLoop forceAtD fuelD 0 (acceptLoop ev shutAt fuelA 0 []).workers =
      (false, []) ∧
    serverRun ev shutAt forceAtD fuelA fuelD =
      ⟨(acceptLoop ev shutAt fuelA 0 []).accepted, false, false, true, true,
        []⟩ :=
  ⟨acceptLoop_congr shutAt ev ev2 hev fuel k ws,
    drainLoop_graceful forceAtD fuelD 0 _ hm (by omega),
    serverRun_graceful ev shutAt forceAtD fuelA fuelD hnc hm hforce⟩

/-- C7 witness: graceful shutdown at a concrete event stream with one
accepted connection, against a variant stream differing only at or after
the shutdown observation. -/
theorem C7_witness :
    acceptLoop evEx 2 5 0 [] = acceptLoop evEx2 2 5 0 [] ∧
    drainLoop 100 10 0 (acceptLoop evEx 2 5 0 []).workers = (false, []) ∧
    serverRun evEx 2 100 5 10 =
      ⟨(acceptLoop evEx 2 5 0 []).accepted, false, false, true, true, []⟩ :=
  C7_thm evEx evEx2 2 100 5 10 5 0 [] (by decide) (by decide) (by decide)
    (by decide)

/-- C8 counterexample: with a connection accepted at the first poll and an
error raised at the second, the run crashes out of the accept loop without
reaching the drain loop or the final join, abandoning the live worker —
execution does not proceed to the drain/stop sequence as claimed. -/
theorem C8_counterexample :
    (serverRun evErr 10 100 20 10).crashed = true ∧
    (serverRun evErr 10 100 20 10).drainRan = false ∧
    (serverRun evErr 10 100 20 10).finalJoinRan = false ∧
    (serverRun evErr 10 100 20 10).liveAtExit = [4] := by
  decide

/-- C8 (amended): an accept-loop error other than a poll timeout does stop
the accept loop, but the exception propagates out of `run` uncaught: the
drain/stop sequence is skipped entirely — workers are neither
force-flagged, nor reaped, nor joined — and only the listening socket's
context manager runs. -/
theorem C8_thm (ev : Nat → AEv) (shutAt forceAtD fuelA fuelD j0 : Nat)
    (hj : j0 < shutAt) (he : ev j0 = AEv.err)
    (hbefore : ∀ j, j < j0 → ev j ≠ AEv.err) (hfuel : j0 < fuelA) :
    (serverRun ev shutAt forceAtD fuelA fuelD).crashed = true ∧
    (serverRun ev shutAt forceAtD fuelA fuelD).forcedWorkers = false ∧
    (serverRun ev shutAt forceAtD fuelA fuelD).drainRan = false ∧
    (serverRun ev shutAt forceAtD fuelA fuelD).finalJoinRan = false := by
  have hc := acceptLoop_err ev shutAt fuelA 0 [] j0 (Nat.zero_le _) hj he
    (fun j h1 h2 => hbefore j h2) (by omega)
  rw [serverRun_crash ev shutAt forceAtD fuelA fuelD hc]
  exact ⟨rfl, rfl, rfl, rfl⟩

/-- C8 witness: the amended claim at the concrete crashing event
stream. -/
theorem C8_witness :
    (serverRun evErr 10 100 20 10).crashed = true ∧
    (serverRun evErr 10 100 20 10).forcedWorkers = false ∧
    (serverRun evErr 10 100 20 10).drainRan = false ∧
    (serverRun evErr 10 100 20 10).finalJoinRan = false :=
  C8_thm evErr 10 100 20 10 1 (by decide) (by decide) (by decide) (by decide)

/-- A zero-length frame at the head of the stream: after the 4-byte
prefix is read and unpacked to `L = 0`, `_recv_chunk(0)` returns the
empty byte string, and the loop breaks as if the peer had closed — no
deserialization attempt, no dispatch, the rest of the stream unread. -/
theorem runAux_zero_frame {Rec : Type} (deser : List Byte → Option Rec)
    (forceAt fuel k : Nat) (rest : List Byte) (sched : List Nat)
    (hforce : k + 4 + rest.length < forceAt) :
    ∃ k2,
      runAux deser forceAt (fuel + 1) k (encodeFrame [] ++ rest) true sched =
        ⟨[], [], WExit.eof, true, true, k2, rest⟩ ∧
      k2 ≤ k + 4 := by
  have h4 : (pack32 0).length = 4 := rfl
  obtain ⟨k1, s1, heq1, hk1⟩ :=
    recvChunk_complete forceAt 4 k (pack32 0 ++ rest) sched
      (by rw [List.length_append, h4]; omega) (by omega)
  have htk : (pack32 0 ++ rest).take 4 = pack32 0 := by
    conv_lhs => rw [← h4]
    exact List.take_left _ _
  have hdr : (pack32 0 ++ rest).drop 4 = rest := by
    conv_lhs => rw [← h4]
    exact List.drop_left _ _
  rw [htk, hdr] at heq1
  have hdata : encodeFrame [] ++ rest = pack32 0 ++ rest := by
    simp [encodeFrame]
  refine ⟨k1, ?_, by omega⟩
  simp only [hdata]
  simp only [runAux, heq1, unpack32_pack32 0 (by norm_num),
    recvChunk_zero forceAt k1 rest true s1]
  rw [if_neg (by omega), if_neg (pack32_ne_nil 0)]
  simp

/-- C9: a frame with `L = 0`: `_recv_chunk(0)` returns the empty byte
string — the very value that signals a closed connection — so after
reading such a prefix the run loop breaks with no record dispatched and no
deserialization attempt, leaving every following byte of the stream
unread. -/
theorem C9_thm {Rec : Type} (deser : List Byte → Option Rec)
    (forceAt k kz : Nat) (rest dataz : List Byte) (closedz : Bool)
    (sched schedz : List Nat) (hforce : k + 4 + rest.length < forceAt) :
    recvChunk forceAt 0 kz dataz closedz schedz = ([], kz, dataz, schedz) ∧
    ∃ k2,
      workerRun deser forceAt k (encodeFrame [] ++ rest) true sched =
        ⟨[], [], WExit.eof, true, true, k2, rest⟩ ∧
      k2 ≤ k + 4 :=
  ⟨recvChunk_zero forceAt kz dataz closedz schedz,
    runAux_zero_frame deser forceAt (encodeFrame [] ++ rest).length k rest
      sched hforce⟩

/-- C9 witness: the zero-length frame at a concrete stream with two
trailing bytes that are never read. -/
theorem C9_witness :
    recvChunk 1000 0 3 [5] true [] = ([], 3, [5], []) ∧
    ∃ k2,
      workerRun deserEx 1000 0 (encodeFrame [] ++ [9, 9]) true [] =
        ⟨[], [], WExit.eof, true, true, k2, [9, 9]⟩ ∧
      k2 ≤ 0 + 4 :=
  C9_thm deserEx 1000 0 3 [9, 9] [5] true [] [] (by decide)

/-- C10: the length-parsing step can never fail: every `_recv_chunk(4)`
result is exactly 4 bytes long or empty, the empty result exits the loop
before the unpack, and consequently no execution of the worker loop ever
ends in a `struct.unpack` error. -/
theorem C10_thm {Rec : Type} (deser : List Byte → Option Rec)
    (forceAt fuel k kp : Nat) (data datap : List Byte)
    (closed closedp : Bool) (sched schedp : List Nat) :
    ((recvChunk forceAt 4 kp datap closedp schedp).1.length = 4 ∨
      (recvChunk forceAt 4 kp datap closedp schedp).1 = []) ∧
    (runAux deser forceAt fuel k data closed sched).exit ≠
      WExit.structErr := by
  constructor
  · obtain ⟨t, k2, s2, heq, _, _, _, _⟩ :=
      recvChunk_spec forceAt 4 kp datap closedp schedp
    rw [heq]
    by_cases h : t.length = 4
    · exact Or.inl (by simp [h])
    · exact Or.inr (by simp [h])
  · exact runAux_exit_ne_structErr deser forceAt fuel k data closed sched
